import Mathlib

/-!
Verification of the declarative schema validation engine specified for the
Pydantic-with-GiGi repository.  The repository's notebooks are callers of the
engine (they declare schemas and show validation outcomes); the engine itself
is not part of the source tree, so its operations below are modelled from the
specification.  The concrete schemas, inputs and whole-record rules are
translated from the notebook sources.
-/

/-- Runtime values flowing through the engine: the closed set of coerced types
(int, float, bool, string, date) plus `vNone` for null/absent optional values.
Floats are modelled as rationals, which is exact for every decimal literal in
the source material. -/
inductive Value where
  | vInt (n : Int)
  | vFloat (q : Rat)
  | vBool (b : Bool)
  | vStr (s : String)
  | vDate (y m d : Nat)
  | vNone
deriving DecidableEq

/-- Declared field types: the spec's closed set, with `opt t` for optional<T>. -/
inductive Ty where
  | int
  | float
  | bool
  | str
  | date
  | opt (t : Ty)
deriving DecidableEq

section CharHelpers

/-- Leading and trailing whitespace removal on a character list (the engine's
"whitespace-trimmed" treatment of numeric strings). -/
def trimC (l : List Char) : List Char :=
  ((l.dropWhile Char.isWhitespace).reverse.dropWhile Char.isWhitespace).reverse

/-- Interpret a digit list as a natural number. -/
def digitsToNat (l : List Char) : Nat :=
  l.foldl (fun a c => a * 10 + (c.toNat - 48)) 0

/-- True when the list is a nonempty run of decimal digits. -/
def isDigits (l : List Char) : Bool :=
  match l with
  | [] => false
  | _ => l.all Char.isDigit

/-- Modelled from the spec: integer parsing of a (trimmed) string, as used by
int coercion — an optional sign followed by at least one digit, nothing else. -/
def parseSignedInt (l : List Char) : Option Int :=
  match l with
  | '-' :: rest => if isDigits rest then some (-(digitsToNat rest : Int)) else none
  | '+' :: rest => if isDigits rest then some (digitsToNat rest : Int) else none
  | _ => if isDigits l then some (digitsToNat l : Int) else none

/-- Unsigned decimal-number parsing: digits with at most one decimal point and
at least one digit overall; the result is an exact rational. -/
def parseUnsignedDec (l : List Char) : Option Rat :=
  let intPart := l.takeWhile (fun c => c != '.')
  let rest := l.dropWhile (fun c => c != '.')
  match rest with
  | [] => if isDigits intPart then some ((digitsToNat intPart : Int) : Rat) else none
  | _ :: frac =>
      if frac.contains '.' then none
      else if intPart.all Char.isDigit && frac.all Char.isDigit
              && (!intPart.isEmpty || !frac.isEmpty) then
        some (mkRat (digitsToNat intPart * 10 ^ frac.length + digitsToNat frac) (10 ^ frac.length))
      else none

/-- Modelled from the spec: float parsing of a (trimmed) string — an optional
sign followed by an unsigned decimal number. -/
def parseDec (l : List Char) : Option Rat :=
  match l with
  | '-' :: rest => (parseUnsignedDec rest).map (fun q => -q)
  | '+' :: rest => parseUnsignedDec rest
  | _ => parseUnsignedDec l

/-- Modelled from the spec: bool parsing — the case-insensitive strings
true/false/1/0/yes/no, nothing else. -/
def parseBoolChars (l : List Char) : Option Bool :=
  let low := l.map Char.toLower
  if low = "true".data ∨ low = "1".data ∨ low = "yes".data then some true
  else if low = "false".data ∨ low = "0".data ∨ low = "no".data then some false
  else none

/-- Day count of a month in the proleptic Gregorian calendar. -/
def daysInMonth (y m : Nat) : Nat :=
  if m = 2 then (if (y % 4 = 0 ∧ ¬ y % 100 = 0) ∨ y % 400 = 0 then 29 else 28)
  else if m = 4 ∨ m = 6 ∨ m = 9 ∨ m = 11 then 30 else 31

/-- Modelled from the spec: ISO-8601 date parsing, `YYYY-MM-DD` with calendar
validity checks. -/
def parseISODate (l : List Char) : Option (Nat × Nat × Nat) :=
  match l with
  | [y1, y2, y3, y4, '-', m1, m2, '-', d1, d2] =>
      if ([y1, y2, y3, y4, m1, m2, d1, d2].all Char.isDigit) then
        let y := digitsToNat [y1, y2, y3, y4]
        let m := digitsToNat [m1, m2]
        let d := digitsToNat [d1, d2]
        if 1 ≤ m ∧ m ≤ 12 ∧ 1 ≤ d ∧ d ≤ daysInMonth y m then some (y, m, d) else none
      else none
  | _ => none

end CharHelpers

section RegexEngine

/-- Regular expressions over characters, with character-class predicates;
enough to express the source's anchored patterns such as the email regex. -/
inductive Regex where
  | emp
  | eps
  | pred (p : Char → Bool)
  | cat (r₁ r₂ : Regex)
  | alt (r₁ r₂ : Regex)
  | star (r : Regex)

/-- Whether a regex accepts the empty string. -/
def Regex.nullable : Regex → Bool
  | .emp => false
  | .eps => true
  | .pred _ => false
  | .cat r₁ r₂ => r₁.nullable && r₂.nullable
  | .alt r₁ r₂ => r₁.nullable || r₂.nullable
  | .star _ => true

/-- Simplifying alternation constructor (keeps derivatives small). -/
def Regex.mkAlt : Regex → Regex → Regex
  | .emp, r => r
  | r, .emp => r
  | r₁, r₂ => .alt r₁ r₂

/-- Simplifying concatenation constructor (keeps derivatives small). -/
def Regex.mkCat : Regex → Regex → Regex
  | .emp, _ => .emp
  | _, .emp => .emp
  | .eps, r => r
  | r, .eps => r
  | r₁, r₂ => .cat r₁ r₂

/-- Brzozowski derivative of a regex by one character. -/
def Regex.deriv : Regex → Char → Regex
  | .emp, _ => .emp
  | .eps, _ => .emp
  | .pred p, c => if p c then .eps else .emp
  | .cat r₁ r₂, c =>
      if r₁.nullable then Regex.mkAlt (Regex.mkCat (r₁.deriv c) r₂) (r₂.deriv c)
      else Regex.mkCat (r₁.deriv c) r₂
  | .alt r₁ r₂, c => Regex.mkAlt (r₁.deriv c) (r₂.deriv c)
  | .star r, c => Regex.mkCat (r.deriv c) (.star r)

/-- Whether the regex matches the whole character list. -/
def Regex.matchList (r : Regex) (l : List Char) : Bool :=
  match l with
  | [] => r.nullable
  | c :: rest => (r.deriv c).matchList rest

/-- Modelled from the spec: the anchored (full-match) pattern test — the regex
must consume the entire string, not merely occur inside it. -/
def Regex.fullMatch (r : Regex) (s : String) : Bool :=
  r.matchList s.data

/-- One-or-more repetition. -/
def Regex.plus (r : Regex) : Regex := .cat r (.star r)

/-- A regex matching one concrete character. -/
def rchar (c : Char) : Regex := .pred (fun c' => c' == c)

/-- The non-whitespace character class (regex `\S`). -/
def nonSpace : Regex := .pred (fun c => !c.isWhitespace)

/-- The email pattern of the source notebooks, regex `^\S+@\S+\.\S+$`. -/
def emailPattern : Regex :=
  .cat nonSpace.plus (.cat (rchar '@') (.cat nonSpace.plus (.cat (rchar '.') nonSpace.plus)))

end RegexEngine

section EngineCore

/-- Declarative constraints attachable to a field (numeric bounds, length
bounds, anchored pattern). -/
inductive Constraint where
  | gt (bound : Rat)
  | ge (bound : Rat)
  | lt (bound : Rat)
  | le (bound : Rat)
  | minLength (n : Nat)
  | maxLength (n : Nat)
  | pattern (r : Regex)

/-- Error kinds of the spec's taxonomy (plus `missing` for a required field
absent from the raw input). -/
inductive ErrKind where
  | missing
  | coercion
  | range
  | length
  | pattern
  | custom
  | crossField
deriving DecidableEq

/-- A single validation error: field path (empty for whole-record errors),
kind, human-readable message and the offending input value (`vNone` when no
single value is to blame, e.g. a missing field or a cross-field failure). -/
structure ValidationError where
  field : String
  kind : ErrKind
  msg : String
  offending : Value
deriving DecidableEq

/-- Numeric view of a coerced value, used by the bound constraints. -/
def Value.toRat? : Value → Option Rat
  | .vInt n => some (n : Rat)
  | .vFloat q => some q
  | _ => none

/-- Modelled from the spec: evaluation of one constraint against one coerced
value, yielding the error kind and message on violation.  Constraints that do
not apply to the value's shape (a bound on a non-numeric value, a length or
pattern on a non-string) produce nothing: the spec makes such combinations a
schema-construction error, so they are unreachable for well-formed schemas,
and `vNone` (an optional field's null) satisfies every constraint vacuously. -/
def constraintError (c : Constraint) (v : Value) : Option (ErrKind × String) :=
  match c with
  | .gt b =>
      match v.toRat? with
      | some q => if b.blt q then none else some (.range, "input should be greater than the bound")
      | none => none
  | .ge b =>
      match v.toRat? with
      | some q => if q.blt b then some (.range, "input should be at least the bound") else none
      | none => none
  | .lt b =>
      match v.toRat? with
      | some q => if q.blt b then none else some (.range, "input should be less than the bound")
      | none => none
  | .le b =>
      match v.toRat? with
      | some q => if b.blt q then some (.range, "input should be at most the bound") else none
      | none => none
  | .minLength n =>
      match v with
      | .vStr s => if s.length < n then some (.length, "string too short") else none
      | _ => none
  | .maxLength n =>
      match v with
      | .vStr s => if n < s.length then some (.length, "string too long") else none
      | _ => none
  | .pattern r =>
      match v with
      | .vStr s => if r.fullMatch s then none else some (.pattern, "string should match the pattern")
      | _ => none

/-- All constraint violations of a field, in declared constraint order (no
short-circuit: every violated constraint yields its own error). -/
def constraintErrors (nm : String) (cs : List Constraint) (v : Value) : List ValidationError :=
  cs.filterMap (fun c => (constraintError c v).map (fun p => ⟨nm, p.1, p.2, v⟩))

/-- Modelled from the spec: type coercion — convert a raw value to the declared
type under the explicit rules of the spec (numeric strings trimmed; booleans
from the fixed word list; dates from ISO-8601 strings; no implicit
stringification; optional<T> maps null to `vNone` and otherwise follows T). -/
def coerce : Ty → Value → Except String Value
  | .int, .vInt n => .ok (.vInt n)
  | .int, .vStr s =>
      match parseSignedInt (trimC s.data) with
      | some n => .ok (.vInt n)
      | none => .error "input could not be parsed as an integer"
  | .int, _ => .error "input should be a valid integer"
  | .float, .vFloat q => .ok (.vFloat q)
  | .float, .vInt n => .ok (.vFloat (n : Rat))
  | .float, .vStr s =>
      match parseDec (trimC s.data) with
      | some q => .ok (.vFloat q)
      | none => .error "input could not be parsed as a number"
  | .float, _ => .error "input should be a valid number"
  | .bool, .vBool b => .ok (.vBool b)
  | .bool, .vStr s =>
      match parseBoolChars s.data with
      | some b => .ok (.vBool b)
      | none => .error "input could not be parsed as a boolean"
  | .bool, _ => .error "input should be a valid boolean"
  | .str, .vStr s => .ok (.vStr s)
  | .str, _ => .error "input should be a valid string"
  | .date, .vDate y m d => .ok (.vDate y m d)
  | .date, .vStr s =>
      match parseISODate s.data with
      | some (y, m, d) => .ok (.vDate y m d)
      | none => .error "input is not a valid ISO-8601 date"
  | .date, _ => .error "input should be a valid date"
  | .opt _, .vNone => .ok .vNone
  | .opt t, v => coerce t v

/-- A record: the ordered field-name/value mapping produced and consumed by the
engine. -/
abbrev Record := List (String × Value)

/-- How a field resolves absence from the raw input: hard-required, a literal
default, or a zero-argument factory invoked fresh on each validation call (the
factory receives the call's index, modelling one fresh invocation per call). -/
inductive Defaulting where
  | required
  | value (v : Value)
  | factory (g : Nat → Value)

/-- Whether the defaulting mode is the "required" sentinel. -/
def Defaulting.isRequired : Defaulting → Bool
  | .required => true
  | _ => false

/-- Modelled from the spec: a field declaration — name, declared type,
constraints, defaulting mode, and the ordered pre-coercion and post-coercion
custom validator chains (each validator returns a possibly transformed value
or signals failure with a message). -/
structure FieldSpec where
  name : String
  ty : Ty
  constraints : List Constraint
  dflt : Defaulting
  preValidators : List (Value → Except String Value)
  postValidators : List (Value → Except String Value)

/-- Modelled from the spec: a schema — ordered field declarations plus the
ordered whole-record validator chain. -/
structure Schema where
  fields : List FieldSpec
  recordValidators : List (Record → Except String Record)

/-- Run an ordered chain of field-level custom validators, each receiving the
previous one's output; the first failure becomes a `custom` error for the
field and stops the chain. -/
def runFieldValidators (nm : String) (vs : List (Value → Except String Value)) (v : Value) :
    Except ValidationError Value :=
  match vs with
  | [] => .ok v
  | f :: rest =>
      match f v with
      | .ok v' => runFieldValidators nm rest v'
      | .error m => .error ⟨nm, .custom, m, v⟩

/-- Modelled from the spec: the per-field pipeline on a present (or defaulted)
value — pre-coercion validators, coercion, all constraints (collected without
short-circuit), then post-coercion validators.  A coercion failure or any
constraint violation stops this field only. -/
def runFieldPipeline (f : FieldSpec) (v : Value) : Except (List ValidationError) Value :=
  match runFieldValidators f.name f.preValidators v with
  | .error e => .error [e]
  | .ok v₁ =>
      match coerce f.ty v₁ with
      | .error m => .error [⟨f.name, .coercion, m, v₁⟩]
      | .ok v₂ =>
          match constraintErrors f.name f.constraints v₂ with
          | [] =>
              match runFieldValidators f.name f.postValidators v₂ with
              | .error e => .error [e]
              | .ok v₃ => .ok v₃
          | e :: es => .error (e :: es)

/-- Modelled from the spec: presence/default resolution followed by the field
pipeline.  Absence with the required sentinel is a `missing` error; a literal
default or a fresh factory product otherwise enters the pipeline. -/
def validateField (f : FieldSpec) (raw : Option Value) (call : Nat) :
    Except (List ValidationError) Value :=
  match raw with
  | some v => runFieldPipeline f v
  | none =>
      match f.dflt with
      | .required => .error [⟨f.name, .missing, "field required", .vNone⟩]
      | .value v => runFieldPipeline f v
      | .factory g => runFieldPipeline f (g call)

/-- The error list of a field outcome (empty on success). -/
def errorsOf (r : Except (List ValidationError) Value) : List ValidationError :=
  match r with
  | .error es => es
  | .ok _ => []

/-- All field-level errors of one pass, concatenated in schema declaration
order; every field is processed (no early termination of the record). -/
def fieldErrorsL (fs : List FieldSpec) (input : Record) (call : Nat) : List ValidationError :=
  match fs with
  | [] => []
  | f :: rest =>
      errorsOf (validateField f (input.lookup f.name) call) ++ fieldErrorsL rest input call

/-- The output record assembled from the successful fields, in declaration
order. -/
def builtRecordL (fs : List FieldSpec) (input : Record) (call : Nat) : Record :=
  match fs with
  | [] => []
  | f :: rest =>
      match validateField f (input.lookup f.name) call with
      | .ok v => (f.name, v) :: builtRecordL rest input call
      | .error _ => builtRecordL rest input call

/-- Run the whole-record validator chain in declaration order; the first
failure stops subsequent whole-record validators. -/
def runRecordValidators (vs : List (Record → Except String Record)) (r : Record) :
    Except String Record :=
  match vs with
  | [] => .ok r
  | rv :: rest =>
      match rv r with
      | .ok r' => runRecordValidators rest r'
      | .error m => .error m

/-- The outcome of one validation call: the coerced record, or a non-empty
error list. -/
inductive ValidationResult where
  | accepted (record : Record)
  | rejected (errors : List ValidationError)
deriving DecidableEq

/-- Modelled from the spec: the orchestrator — one full pass over all declared
fields collecting errors; if any field-level error exists the call is REJECTED
with exactly those errors and the whole-record validators never run; otherwise
the whole-record chain runs and its first failure rejects with one
`crossField` error. -/
def validate (s : Schema) (input : Record) (call : Nat) : ValidationResult :=
  match fieldErrorsL s.fields input call with
  | [] =>
      match runRecordValidators s.recordValidators (builtRecordL s.fields input call) with
      | .ok r => .accepted r
      | .error m => .rejected [⟨"", .crossField, m, .vNone⟩]
  | e :: es => .rejected (e :: es)

end EngineCore

section SourceSchemas

/-- Lexicographic order on (year, month, day) triples, used by the source's
date comparison `self.end_date < self.start_date`. -/
def dateTripleLt (a b : Nat × Nat × Nat) : Bool :=
  if a.1 ≠ b.1 then decide (a.1 < b.1)
  else if a.2.1 ≠ b.2.1 then decide (a.2.1 < b.2.1)
  else decide (a.2.2 < b.2.2)

/-- The whole-record validator of the source's `Event` model: reject when
`end_date < start_date` with the source's message, otherwise pass the record
through unchanged. -/
def Event.check_dates (r : Record) : Except String Record :=
  match r.lookup "start_date", r.lookup "end_date" with
  | some (.vDate ys ms ds), some (.vDate ye me de) =>
      if dateTripleLt (ye, me, de) (ys, ms, ds) then .error "end_date must be after start_date"
      else .ok r
  | _, _ => .ok r

/-- The `start_date` field of the source's `Event` model. -/
def startDateField : FieldSpec := ⟨"start_date", .date, [], .required, [], []⟩

/-- The `end_date` field of the source's `Event` model. -/
def endDateField : FieldSpec := ⟨"end_date", .date, [], .required, [], []⟩

/-- The schema of end-to-end scenario B: the source `Event` model's two date
fields with its whole-record date rule. -/
def Event : Schema := ⟨[startDateField, endDateField], [Event.check_dates]⟩

/-- Python truthiness (`not v` is true exactly on falsy values), as used by
the source's `check_admin_code` on an optional string: `None` and the empty
string are falsy. -/
def pyFalsy : Value → Bool
  | .vNone => true
  | .vStr s => s.isEmpty
  | .vBool b => !b
  | .vInt n => decide (n = 0)
  | .vFloat q => decide (q = 0)
  | .vDate _ _ _ => false

/-- The whole-record validator of the source's admin `User` model:
`if self.is_admin and not self.admin_code: raise ValueError(...)`. -/
def User.check_admin_code (r : Record) : Except String Record :=
  match r.lookup "is_admin" with
  | some (.vBool true) =>
      match r.lookup "admin_code" with
      | some v => if pyFalsy v then .error "Admin code is required for admin users" else .ok r
      | none => .error "Admin code is required for admin users"
  | _ => .ok r

/-- The `username` field shared by the source's `User` models. -/
def usernameField : FieldSpec := ⟨"username", .str, [], .required, [], []⟩

/-- The `email` field of the source's required-fields `User` model. -/
def emailField : FieldSpec := ⟨"email", .str, [], .required, [], []⟩

/-- The `is_admin: bool = False` field of the source's admin `User` model. -/
def isAdminField : FieldSpec := ⟨"is_admin", .bool, [], .value (.vBool false), [], []⟩

/-- The `admin_code: str | None = None` field of the source's admin `User`
model. -/
def adminCodeField : FieldSpec := ⟨"admin_code", .opt .str, [], .value .vNone, [], []⟩

/-- The source's conditional-requirement `User` model (username, is_admin,
admin_code with the admin-code whole-record rule). -/
def UserAdmin : Schema := ⟨[usernameField, isAdminField, adminCodeField], [User.check_admin_code]⟩

/-- The source's all-required `User` model (username and email, no defaults). -/
def UserBasic : Schema := ⟨[usernameField, emailField], []⟩

/-- The `phone: Optional[str]` field without default from the source's
required-vs-optional notebook (still required). -/
def phoneReqField : FieldSpec := ⟨"phone", .opt .str, [], .required, [], []⟩

/-- The `phone: Optional[str] = None` truly-optional field from the same
notebook. -/
def phoneOptField : FieldSpec := ⟨"phone", .opt .str, [], .value .vNone, [], []⟩

/-- The source's `User` model with `phone: Optional[str]` and no default. -/
def UserPhoneReq : Schema := ⟨[usernameField, emailField, phoneReqField], []⟩

/-- The source's `User` model with `phone: Optional[str] = None`. -/
def UserPhoneOpt : Schema := ⟨[usernameField, emailField, phoneOptField], []⟩

/-- The `age: int = Field(ge=18, le=60)` field of the source's `Person`
model. -/
def ageField : FieldSpec := ⟨"age", .int, [.ge 18, .le 60], .required, [], []⟩

/-- The schema of end-to-end scenario A (the age field of the source's
`Person` model). -/
def ageSchema : Schema := ⟨[ageField], []⟩

/-- The `price: float = Field(gt=0)` field of the source's `Product` model. -/
def priceField : FieldSpec := ⟨"price", .float, [.gt 0], .required, [], []⟩

/-- The schema of end-to-end scenario C (the price field of the source's
`Product` model). -/
def priceSchema : Schema := ⟨[priceField], []⟩

/-- The `email: str = Field(pattern=...)` field of the source's pattern
`User` model. -/
def emailPatField : FieldSpec := ⟨"email", .str, [.pattern emailPattern], .required, [], []⟩

/-- The schema of end-to-end scenario D (an email field with the anchored
email pattern). -/
def emailSchema : Schema := ⟨[emailPatField], []⟩

/-- The `message` field of the source's `Log` model. -/
def logMsgField : FieldSpec := ⟨"message", .str, [], .required, [], []⟩

/-- The timestamp field of the source's `Log` model: its
`default_factory=datetime.utcnow` is modelled as a counter factory, the
spec's example of a non-constant factory, receiving the validation call's
index. -/
def logTsField : FieldSpec := ⟨"timestamp", .int, [], .factory (fun k => .vInt k), [], []⟩

/-- The source's `Log` model (message plus factory-defaulted timestamp). -/
def Log : Schema := ⟨[logMsgField, logTsField], []⟩

/-- A post-coercion validator that increments an integer value: a legal
value-transforming custom validator under the spec's validator contract. -/
def incrementInt : Value → Except String Value
  | .vInt n => .ok (.vInt (n + 1))
  | v => .ok v

/-- The `count` field with the incrementing post-coercion validator. -/
def countField : FieldSpec := ⟨"count", .int, [], .required, [], [incrementInt]⟩

/-- A schema with a value-transforming custom validator, used to probe the
idempotence property. -/
def IncSchema : Schema := ⟨[countField], []⟩

end SourceSchemas

/-- The declared fields that are required (no default) and absent from the raw
input, in declaration order. -/
def missingRequired (fs : List FieldSpec) (input : Record) : List FieldSpec :=
  fs.filter (fun f => f.dflt.isRequired && (input.lookup f.name).isNone)

/-- The value of a successful field outcome (`vNone` for a failed one). -/
def extractOk (r : Except (List ValidationError) Value) : Value :=
  match r with
  | .ok v => v
  | .error _ => .vNone

section HelperLemmas

/-- The orchestrator rejects with exactly the collected field errors whenever
any exist. -/
theorem validate_rejected_of_ne_nil (s : Schema) (input : Record) (call : Nat)
    (h : fieldErrorsL s.fields input call ≠ []) :
    validate s input call = .rejected (fieldErrorsL s.fields input call) := by
  unfold validate
  cases he : fieldErrorsL s.fields input call with
  | nil => exact absurd he h
  | cons e es => rfl

end HelperLemmas

/-- Claim C3: for the schema with one field `age : int`, `ge 18`, `le 60`,
input `age = 25` is ACCEPTED with record `age = 25`, and input `age = 12` is
REJECTED with exactly one range error on `age`. -/
theorem scenario_age_bounds :
    validate ageSchema [("age", .vInt 25)] 0 = .accepted [("age", .vInt 25)] ∧
    validate ageSchema [("age", .vInt 12)] 0
      = .rejected [⟨"age", .range, "input should be at least the bound", .vInt 12⟩] :=
  ⟨rfl, rfl⟩

/-- Claim C4: for the schema with one field `price : float`, `gt 0`, input
`price = 0` (an integer, coerced to float) is REJECTED with exactly one range
error, input `price = "899.99"` is ACCEPTED with the coerced float 899.99, and
a string coerces to float exactly when it parses (whitespace-trimmed) as a
decimal number. -/
theorem scenario_price_float_coercion :
    validate priceSchema [("price", .vInt 0)] 0
      = .rejected [⟨"price", .range, "input should be greater than the bound", .vFloat 0⟩] ∧
    validate priceSchema [("price", .vStr "899.99")] 0
      = .accepted [("price", .vFloat (mkRat 89999 100))] ∧
    (∀ (s : String) (q : Rat),
        coerce .float (.vStr s) = .ok (.vFloat q) ↔ parseDec (trimC s.data) = some q) := by
  refine ⟨rfl, rfl, ?_⟩
  intro s q
  constructor
  · intro h
    unfold coerce at h
    cases hp : parseDec (trimC s.data) with
    | none => rw [hp] at h; cases h
    | some q' => rw [hp] at h; cases h; rfl
  · intro h
    unfold coerce
    rw [h]

/-- Claim C5: for the two-date `Event` schema with the whole-record rule that
`end_date` may not precede `start_date`, the in-order ISO string input is
ACCEPTED with both strings coerced to dates, and the out-of-order input is
REJECTED with exactly one cross-field error. -/
theorem scenario_event_dates :
    validate Event [("start_date", .vStr "2025-07-01"), ("end_date", .vStr "2025-07-10")] 0
      = .accepted [("start_date", .vDate 2025 7 1), ("end_date", .vDate 2025 7 10)] ∧
    validate Event [("start_date", .vStr "2025-08-01"), ("end_date", .vStr "2025-07-10")] 0
      = .rejected [⟨"", .crossField, "end_date must be after start_date", .vNone⟩] :=
  ⟨rfl, rfl⟩

/-- Claim C6: a pattern constraint on a string field passes exactly when the
regex full-matches the whole string (it is anchored: a string containing a
match only as a proper substring still fails), and for the email schema the
input `"not-an-email"` is REJECTED with exactly one pattern error. -/
theorem pattern_full_match :
    (∀ (r : Regex) (s : String),
        constraintError (.pattern r) (.vStr s) = none ↔ r.fullMatch s = true) ∧
    Regex.fullMatch emailPattern "not-an-email" = false ∧
    Regex.fullMatch emailPattern "a@b.c" = true ∧
    Regex.fullMatch emailPattern "a@b.c " = false ∧
    validate emailSchema [("email", .vStr "not-an-email")] 0
      = .rejected [⟨"email", .pattern, "string should match the pattern", .vStr "not-an-email"⟩] := by
  refine ⟨?_, rfl, rfl, rfl, rfl⟩
  intro r s
  simp only [constraintError]
  cases h : r.fullMatch s <;> simp [h]

/-- Claim C9: the timestamp field's default factory is invoked fresh on each
validation call in which the field is absent — the call with index `k`
receives the factory's `k`-th product — and two separate calls of the
non-constant (counter) factory produce distinct records. -/
theorem default_factory_fresh_per_call :
    (∀ call : Nat, validate Log [("message", .vStr "User logged in")] call
      = .accepted [("message", .vStr "User logged in"), ("timestamp", .vInt call)]) ∧
    validate Log [("message", .vStr "User logged in")] 0
      ≠ validate Log [("message", .vStr "User logged in")] 1 :=
  ⟨fun _ => rfl, by decide⟩

/-- Claim C10: under the admin `User` schema's whole-record rule, when
`is_admin` is true the record is rejected for every falsy `admin_code` —
the empty string, an explicit null, and absence (which defaults to null) —
while a non-empty code is accepted; when `is_admin` is false the rule accepts
every `admin_code` value, including absence. -/
theorem check_admin_code_truthiness :
    validate UserAdmin
        [("username", .vStr "gigi"), ("is_admin", .vBool true), ("admin_code", .vStr "")] 0
      = .rejected [⟨"", .crossField, "Admin code is required for admin users", .vNone⟩] ∧
    validate UserAdmin
        [("username", .vStr "gigi"), ("is_admin", .vBool true), ("admin_code", .vNone)] 0
      = .rejected [⟨"", .crossField, "Admin code is required for admin users", .vNone⟩] ∧
    validate UserAdmin [("username", .vStr "gigi"), ("is_admin", .vBool true)] 0
      = .rejected [⟨"", .crossField, "Admin code is required for admin users", .vNone⟩] ∧
    validate UserAdmin
        [("username", .vStr "gigi"), ("is_admin", .vBool true), ("admin_code", .vStr "ADM123")] 0
      = .accepted [("username", .vStr "gigi"), ("is_admin", .vBool true),
                   ("admin_code", .vStr "ADM123")] ∧
    (∀ u v : Value,
        User.check_admin_code [("username", u), ("is_admin", .vBool false), ("admin_code", v)]
          = .ok [("username", u), ("is_admin", .vBool false), ("admin_code", v)]) ∧
    validate UserAdmin [("username", .vStr "gigi")] 0
      = .accepted [("username", .vStr "gigi"), ("is_admin", .vBool false),
                   ("admin_code", .vNone)] :=
  ⟨rfl, rfl, rfl, rfl, fun _ _ => rfl, rfl⟩

/-- Claim C7 counterexample: in the source's model with `phone :
optional<string>` and no default, absence of `phone` from the raw input does
NOT map to `None` — it is a missing-field error, so the input is REJECTED
rather than accepted with `phone = None`. -/
theorem optional_absent_not_none_counterexample :
    validate UserPhoneReq [("username", .vStr "gigi"), ("email", .vStr "gigi@example.com")] 0
      = .rejected [⟨"phone", .missing, "field required", .vNone⟩] := rfl

/-- Claim C7 (amended): for a field declared `optional<T>`, a null input maps
to `None` without error and any other input is coerced by T's rule; absence
maps to `None` only when the field carries a `None` default — an optional
field with no default treats absence as a missing-field error (presence
resolution precedes the optional coercion rule). -/
theorem optional_null_and_default_semantics :
    (∀ t : Ty, coerce (.opt t) .vNone = .ok .vNone) ∧
    (∀ (t : Ty) (v : Value), v ≠ .vNone → coerce (.opt t) v = coerce t v) ∧
    validate UserPhoneOpt [("username", .vStr "gigi"), ("email", .vStr "gigi@example.com")] 0
      = .accepted [("username", .vStr "gigi"), ("email", .vStr "gigi@example.com"),
                   ("phone", .vNone)] ∧
    validate UserPhoneOpt
        [("username", .vStr "gigi"), ("email", .vStr "gigi@example.com"), ("phone", .vNone)] 0
      = .accepted [("username", .vStr "gigi"), ("email", .vStr "gigi@example.com"),
                   ("phone", .vNone)] ∧
    validate UserPhoneOpt
        [("username", .vStr "gigi"), ("email", .vStr "gigi@example.com"),
         ("phone", .vStr "12345")] 0
      = .accepted [("username", .vStr "gigi"), ("email", .vStr "gigi@example.com"),
                   ("phone", .vStr "12345")] := by
  refine ⟨fun _ => rfl, ?_, rfl, rfl, rfl⟩
  intro t v hv
  cases v with
  | vNone => exact absurd rfl hv
  | vInt n => rfl
  | vFloat q => rfl
  | vBool b => rfl
  | vStr s => rfl
  | vDate y m d => rfl

/-- Witness for the amended claim C7 at a concrete non-null value. -/
theorem optional_null_and_default_semantics_witness :
    (Value.vStr "hi" ≠ Value.vNone) ∧
    coerce (.opt .str) (.vStr "hi") = coerce .str (.vStr "hi") :=
  ⟨by decide, optional_null_and_default_semantics.2.1 .str (.vStr "hi") (by decide)⟩

/-- Claim C2: when any field-level error exists, the call is REJECTED with
exactly the field-level errors, and the whole-record validators are never
invoked — the outcome is independent of the whole-record validator chain. -/
theorem whole_record_gated_on_field_errors (fields : List FieldSpec)
    (rvs rvs' : List (Record → Except String Record)) (input : Record) (call : Nat)
    (h : fieldErrorsL fields input call ≠ []) :
    validate ⟨fields, rvs⟩ input call = .rejected (fieldErrorsL fields input call) ∧
    validate ⟨fields, rvs⟩ input call = validate ⟨fields, rvs'⟩ input call := by
  refine ⟨validate_rejected_of_ne_nil ⟨fields, rvs⟩ input call h, ?_⟩
  rw [validate_rejected_of_ne_nil ⟨fields, rvs⟩ input call h,
      validate_rejected_of_ne_nil ⟨fields, rvs'⟩ input call h]

/-- Witness for claim C2: the `Event` schema (whose date rule would itself
fail on this input) with `start_date` absent rejects with only the
field-level error, whether or not the whole-record chain is present. -/
theorem whole_record_gated_on_field_errors_witness :
    fieldErrorsL Event.fields [("end_date", Value.vStr "2025-07-10")] 0 ≠ [] ∧
    validate ⟨Event.fields, Event.recordValidators⟩ [("end_date", Value.vStr "2025-07-10")] 0
      = .rejected (fieldErrorsL Event.fields [("end_date", Value.vStr "2025-07-10")] 0) ∧
    validate ⟨Event.fields, Event.recordValidators⟩ [("end_date", Value.vStr "2025-07-10")] 0
      = validate ⟨Event.fields, []⟩ [("end_date", Value.vStr "2025-07-10")] 0 := by
  have h : fieldErrorsL Event.fields [("end_date", Value.vStr "2025-07-10")] 0 ≠ [] := by decide
  have hg := whole_record_gated_on_field_errors Event.fields Event.recordValidators []
    [("end_date", Value.vStr "2025-07-10")] 0 h
  exact ⟨h, hg.1, hg.2⟩


/-- Constraint evaluation never produces a missing-field error kind. -/
theorem constraintError_not_missing (c : Constraint) (v : Value) (p : ErrKind × String)
    (h : constraintError c v = some p) : p.1 ≠ ErrKind.missing := by
  cases c <;> simp only [constraintError] at h <;> (repeat' split at h) <;> simp at h <;>
    (subst h; decide)

/-- No error collected from a field's constraint set has the missing kind. -/
theorem constraintErrors_not_missing (nm : String) (cs : List Constraint) (v : Value)
    (e : ValidationError) (he : e ∈ constraintErrors nm cs v) : e.kind ≠ ErrKind.missing := by
  unfold constraintErrors at he
  rw [List.mem_filterMap] at he
  obtain ⟨c, _, hc⟩ := he
  cases hco : constraintError c v with
  | none => rw [hco] at hc; simp at hc
  | some p =>
      rw [hco] at hc
      simp only [Option.map_some', Option.some.injEq] at hc
      rw [← hc]
      exact constraintError_not_missing c v p hco

/-- A failing custom-validator chain always reports a custom-kind error. -/
theorem runFieldValidators_error_kind (nm : String) (vs : List (Value → Except String Value))
    (v : Value) (e : ValidationError)
    (h : runFieldValidators nm vs v = .error e) : e.kind = ErrKind.custom := by
  induction vs generalizing v with
  | nil => simp [runFieldValidators] at h
  | cons g rest ih =>
      simp only [runFieldValidators] at h
      cases hg : g v with
      | ok w => rw [hg] at h; exact ih w h
      | error m =>
          rw [hg] at h
          injection h with h1
          subst h1
          rfl

/-- The per-field pipeline (which only runs on a present or defaulted value)
never produces a missing-kind error. -/
theorem runFieldPipeline_not_missing (f : FieldSpec) (v : Value) (e : ValidationError)
    (he : e ∈ errorsOf (runFieldPipeline f v)) : e.kind ≠ ErrKind.missing := by
  unfold runFieldPipeline at he
  cases h1 : runFieldValidators f.name f.preValidators v with
  | error e0 =>
      simp only [h1, errorsOf, List.mem_singleton] at he
      subst he
      rw [runFieldValidators_error_kind _ _ _ _ h1]
      decide
  | ok v1 =>
      simp only [h1] at he
      cases h2 : coerce f.ty v1 with
      | error m =>
          simp only [h2, errorsOf, List.mem_singleton] at he
          subst he
          exact fun hc => ErrKind.noConfusion hc
      | ok v2 =>
          simp only [h2] at he
          cases h3 : constraintErrors f.name f.constraints v2 with
          | nil =>
              simp only [h3] at he
              cases h4 : runFieldValidators f.name f.postValidators v2 with
              | error e0 =>
                  simp only [h4, errorsOf, List.mem_singleton] at he
                  subst he
                  rw [runFieldValidators_error_kind _ _ _ _ h4]
                  decide
              | ok v3 =>
                  simp [h4, errorsOf] at he
          | cons e0 es =>
              simp only [h3, errorsOf] at he
              rw [← h3] at he
              exact constraintErrors_not_missing f.name f.constraints v2 e he

/-- The missing-kind sublist of a pipeline's errors is empty. -/
theorem filter_missing_pipeline (f : FieldSpec) (v : Value) :
    (errorsOf (runFieldPipeline f v)).filter (fun e => e.kind = ErrKind.missing) = [] := by
  rw [List.filter_eq_nil_iff]
  intro e he
  simp only [decide_eq_true_eq]
  exact runFieldPipeline_not_missing f v e he

/-- A field contributes exactly one missing-kind error when it is required
and absent, and none otherwise. -/
theorem validateField_missing_filter (f : FieldSpec) (raw : Option Value) (call : Nat) :
    (errorsOf (validateField f raw call)).filter (fun e => e.kind = ErrKind.missing)
      = if f.dflt.isRequired && raw.isNone
        then [⟨f.name, ErrKind.missing, "field required", Value.vNone⟩] else [] := by
  cases raw with
  | some v =>
      simp [validateField, filter_missing_pipeline]
  | none =>
      cases hd : f.dflt with
      | required =>
          simp [validateField, hd, errorsOf, Defaulting.isRequired, List.filter_cons]
      | value v =>
          simp [validateField, hd, filter_missing_pipeline, Defaulting.isRequired]
      | factory g =>
          simp [validateField, hd, filter_missing_pipeline, Defaulting.isRequired]

/-- The missing-kind errors of one full pass name exactly the required-and-
absent fields, in schema declaration order. -/
theorem fieldErrorsL_missing_map (fs : List FieldSpec) (input : Record) (call : Nat) :
    ((fieldErrorsL fs input call).filter (fun e => e.kind = ErrKind.missing)).map
        ValidationError.field
      = (missingRequired fs input).map FieldSpec.name := by
  induction fs with
  | nil => rfl
  | cons f rest ih =>
      rw [show fieldErrorsL (f :: rest) input call
            = errorsOf (validateField f (input.lookup f.name) call)
              ++ fieldErrorsL rest input call from rfl]
      rw [List.filter_append, List.map_append, validateField_missing_filter, ih]
      unfold missingRequired
      rw [List.filter_cons]
      cases hc : (f.dflt.isRequired && (input.lookup f.name).isNone) with
      | true => simp [hc, missingRequired]
      | false => simp [hc, missingRequired]

/-- Claim C1: validation completes one full pass over all declared fields;
for an input whose required, defaultless missing fields number N, the call is
REJECTED and the error list contains at least N errors, among them exactly one
missing-field error per missing field, in schema declaration order. -/
theorem missing_required_fields_reported (s : Schema) (input : Record) (call : Nat)
    (h : missingRequired s.fields input ≠ []) :
    ∃ errs, validate s input call = .rejected errs ∧
      ((errs.filter (fun e => e.kind = ErrKind.missing)).map ValidationError.field
        = (missingRequired s.fields input).map FieldSpec.name) ∧
      (missingRequired s.fields input).length ≤ errs.length := by
  have hmap := fieldErrorsL_missing_map s.fields input call
  have hne : fieldErrorsL s.fields input call ≠ [] := by
    intro h0
    rw [h0] at hmap
    simp only [List.filter_nil, List.map_nil] at hmap
    exact h (List.map_eq_nil_iff.mp hmap.symm)
  refine ⟨fieldErrorsL s.fields input call, validate_rejected_of_ne_nil s input call hne,
    hmap, ?_⟩
  have hlen : (missingRequired s.fields input).length
      = ((fieldErrorsL s.fields input call).filter
          (fun e => e.kind = ErrKind.missing)).length := by
    rw [← List.length_map (missingRequired s.fields input) FieldSpec.name, ← hmap,
        List.length_map]
  rw [hlen]
  exact List.length_filter_le _ _

/-- Witness for claim C1: the all-required `User` schema with `email` absent. -/
theorem missing_required_fields_reported_witness :
    missingRequired UserBasic.fields [("username", Value.vStr "gigi")] ≠ [] ∧
    (∃ errs, validate UserBasic [("username", Value.vStr "gigi")] 0 = .rejected errs ∧
      ((errs.filter (fun e => e.kind = ErrKind.missing)).map ValidationError.field
        = (missingRequired UserBasic.fields [("username", Value.vStr "gigi")]).map
            FieldSpec.name) ∧
      (missingRequired UserBasic.fields [("username", Value.vStr "gigi")]).length
        ≤ errs.length) := by
  have hne : missingRequired UserBasic.fields [("username", Value.vStr "gigi")] ≠ [] := by
    rw [show missingRequired UserBasic.fields [("username", Value.vStr "gigi")]
          = [emailField] from rfl]
    exact List.cons_ne_nil _ _
  exact ⟨hne, missing_required_fields_reported UserBasic [("username", Value.vStr "gigi")] 0 hne⟩


/-- Coercion is stable: re-coercing an already coerced value is a no-op. -/
theorem coerce_stable (t : Ty) (v w : Value) (h : coerce t v = .ok w) : coerce t w = .ok w := by
  induction t generalizing v w with
  | int =>
      cases v <;> simp only [coerce] at h
      case vInt n => injection h with h1; subst h1; rfl
      case vStr s =>
        cases hp : parseSignedInt (trimC s.data) with
        | none => simp only [hp] at h; exact Except.noConfusion h
        | some n => simp only [hp] at h; injection h with h1; subst h1; rfl
      all_goals exact Except.noConfusion h
  | float =>
      cases v <;> simp only [coerce] at h
      case vInt n => injection h with h1; subst h1; rfl
      case vFloat q => injection h with h1; subst h1; rfl
      case vStr s =>
        cases hp : parseDec (trimC s.data) with
        | none => simp only [hp] at h; exact Except.noConfusion h
        | some q => simp only [hp] at h; injection h with h1; subst h1; rfl
      all_goals exact Except.noConfusion h
  | bool =>
      cases v <;> simp only [coerce] at h
      case vBool b => injection h with h1; subst h1; rfl
      case vStr s =>
        cases hp : parseBoolChars s.data with
        | none => simp only [hp] at h; exact Except.noConfusion h
        | some b => simp only [hp] at h; injection h with h1; subst h1; rfl
      all_goals exact Except.noConfusion h
  | str =>
      cases v <;> simp only [coerce] at h
      case vStr s => injection h with h1; subst h1; rfl
      all_goals exact Except.noConfusion h
  | date =>
      cases v <;> simp only [coerce] at h
      case vDate y m d => injection h with h1; subst h1; rfl
      case vStr s =>
        cases hp : parseISODate s.data with
        | none => simp only [hp] at h; exact Except.noConfusion h
        | some trip =>
            obtain ⟨y, m, d⟩ := trip
            simp only [hp] at h; injection h with h1; subst h1; rfl
      all_goals exact Except.noConfusion h
  | opt t ih =>
      cases v with
      | vNone =>
          simp only [coerce] at h
          injection h with h1
          subst h1
          rfl
      | vInt n =>
          have hw := ih (.vInt n) w h
          cases w <;> first | rfl | exact hw
      | vFloat q =>
          have hw := ih (.vFloat q) w h
          cases w <;> first | rfl | exact hw
      | vBool b =>
          have hw := ih (.vBool b) w h
          cases w <;> first | rfl | exact hw
      | vStr s =>
          have hw := ih (.vStr s) w h
          cases w <;> first | rfl | exact hw
      | vDate y m d =>
          have hw := ih (.vDate y m d) w h
          cases w <;> first | rfl | exact hw

/-- A chain of pure-check validators (each returns its input unchanged on
success) leaves the value unchanged. -/
theorem runFieldValidators_pure (nm : String) (vs : List (Value → Except String Value))
    (hp : ∀ g ∈ vs, ∀ a b, g a = .ok b → b = a) (v w : Value)
    (h : runFieldValidators nm vs v = .ok w) : w = v := by
  induction vs generalizing v with
  | nil => injection h with h1; exact h1.symm
  | cons g rest ih =>
      simp only [runFieldValidators] at h
      cases hg : g v with
      | error m => simp only [hg] at h; exact Except.noConfusion h
      | ok b =>
          simp only [hg] at h
          have hb : b = v := hp g (List.mem_cons_self g rest) v b hg
          subst hb
          exact ih (fun g' hg' => hp g' (List.mem_cons_of_mem _ hg')) b h

/-- A chain of pure-check whole-record validators leaves the record
unchanged. -/
theorem runRecordValidators_pure (vs : List (Record → Except String Record))
    (hp : ∀ rv ∈ vs, ∀ a b, rv a = .ok b → b = a) (r r' : Record)
    (h : runRecordValidators vs r = .ok r') : r' = r := by
  induction vs generalizing r with
  | nil => injection h with h1; exact h1.symm
  | cons rv rest ih =>
      simp only [runRecordValidators] at h
      cases hg : rv r with
      | error m => simp only [hg] at h; exact Except.noConfusion h
      | ok b =>
          simp only [hg] at h
          have hb : b = r := hp rv (List.mem_cons_self rv rest) r b hg
          subst hb
          exact ih (fun g' hg' => hp g' (List.mem_cons_of_mem _ hg')) b h

/-- With no pre-coercion validators and pure-check post-coercion validators,
re-running the field pipeline on its own output succeeds with that output. -/
theorem runFieldPipeline_stable (f : FieldSpec) (v w : Value)
    (hpre : f.preValidators = [])
    (hpost : ∀ g ∈ f.postValidators, ∀ a b, g a = .ok b → b = a)
    (h : runFieldPipeline f v = .ok w) :
    runFieldPipeline f w = .ok w := by
  unfold runFieldPipeline at h ⊢
  rw [hpre] at h ⊢
  simp only [runFieldValidators] at h ⊢
  cases hc : coerce f.ty v with
  | error m => simp only [hc] at h; exact Except.noConfusion h
  | ok v2 =>
      simp only [hc] at h
      cases hce : constraintErrors f.name f.constraints v2 with
      | cons e es => simp only [hce] at h; exact Except.noConfusion h
      | nil =>
          simp only [hce] at h
          cases hpv : runFieldValidators f.name f.postValidators v2 with
          | error e => simp only [hpv] at h; exact Except.noConfusion h
          | ok v3 =>
              simp only [hpv] at h
              injection h with h1
              subst h1
              have hw : v3 = v2 := runFieldValidators_pure _ _ hpost _ _ hpv
              subst hw
              simp only [coerce_stable f.ty v _ hc, hce, hpv]

/-- A failing field pipeline always reports at least one error. -/
theorem runFieldPipeline_error_ne_nil (f : FieldSpec) (v : Value) (es : List ValidationError)
    (h : runFieldPipeline f v = .error es) : es ≠ [] := by
  unfold runFieldPipeline at h
  cases h1 : runFieldValidators f.name f.preValidators v with
  | error e0 =>
      simp only [h1] at h
      injection h with h2
      subst h2
      exact List.cons_ne_nil _ _
  | ok v1 =>
      simp only [h1] at h
      cases h2 : coerce f.ty v1 with
      | error m =>
          simp only [h2] at h
          injection h with h3
          subst h3
          exact List.cons_ne_nil _ _
      | ok v2 =>
          simp only [h2] at h
          cases hce : constraintErrors f.name f.constraints v2 with
          | cons e es' =>
              simp only [hce] at h
              injection h with h3
              subst h3
              exact List.cons_ne_nil _ _
          | nil =>
              simp only [hce] at h
              cases h4 : runFieldValidators f.name f.postValidators v2 with
              | error e0 =>
                  simp only [h4] at h
                  injection h with h3
                  subst h3
                  exact List.cons_ne_nil _ _
              | ok v3 => simp only [h4] at h; exact Except.noConfusion h

/-- A failing field always reports at least one error. -/
theorem validateField_error_ne_nil (f : FieldSpec) (raw : Option Value) (call : Nat)
    (es : List ValidationError) (h : validateField f raw call = .error es) : es ≠ [] := by
  cases raw with
  | some v => exact runFieldPipeline_error_ne_nil f v es h
  | none =>
      simp only [validateField] at h
      cases hd : f.dflt with
      | required =>
          simp only [hd] at h
          injection h with h1
          subst h1
          exact List.cons_ne_nil _ _
      | value v => simp only [hd] at h; exact runFieldPipeline_error_ne_nil f v es h
      | factory gf => simp only [hd] at h; exact runFieldPipeline_error_ne_nil f (gf call) es h

/-- When a pass collects no errors, every field outcome is a success. -/
theorem fieldErrorsL_nil_ok (fs : List FieldSpec) (input : Record) (call : Nat)
    (h : fieldErrorsL fs input call = []) :
    ∀ f ∈ fs, validateField f (input.lookup f.name) call
      = .ok (extractOk (validateField f (input.lookup f.name) call)) := by
  induction fs with
  | nil => intro f hf; cases hf
  | cons f0 rest ih =>
      rw [show fieldErrorsL (f0 :: rest) input call
            = errorsOf (validateField f0 (input.lookup f0.name) call)
              ++ fieldErrorsL rest input call from rfl] at h
      have h2 := List.append_eq_nil.mp h
      intro f hf
      rcases List.mem_cons.mp hf with hEq | hMem
      · subst hEq
        cases hv : validateField f (input.lookup f.name) call with
        | ok v => rfl
        | error es =>
            exfalso
            have hnil : errorsOf (validateField f (input.lookup f.name) call) = [] := h2.1
            rw [hv] at hnil
            exact validateField_error_ne_nil f _ call es hv hnil
      · exact ih h2.2 f hMem

/-- When every field succeeds, the assembled record pairs each field name
with its outcome value, in declaration order. -/
theorem builtRecordL_eq_map (fs : List FieldSpec) (input : Record) (call : Nat)
    (h : ∀ f ∈ fs, validateField f (input.lookup f.name) call
          = .ok (extractOk (validateField f (input.lookup f.name) call))) :
    builtRecordL fs input call
      = fs.map (fun f => (f.name, extractOk (validateField f (input.lookup f.name) call))) := by
  induction fs with
  | nil => rfl
  | cons f0 rest ih =>
      obtain ⟨v, hv⟩ : ∃ v, validateField f0 (input.lookup f0.name) call = .ok v :=
        ⟨_, h f0 (List.mem_cons_self f0 rest)⟩
      simp only [builtRecordL, List.map_cons, hv]
      rw [ih (fun f hf => h f (List.mem_cons_of_mem _ hf))]
      rfl

/-- Looking a field's name up in the record assembled from fields with
pairwise-distinct names retrieves that field's value. -/
theorem lookup_map_name (fs : List FieldSpec) (g : FieldSpec → Value)
    (hnd : (fs.map FieldSpec.name).Nodup) (f : FieldSpec) (hf : f ∈ fs) :
    (fs.map (fun f' => (f'.name, g f'))).lookup f.name = some (g f) := by
  induction fs with
  | nil => cases hf
  | cons f0 rest ih =>
      rcases List.mem_cons.mp hf with hEq | hMem
      · subst hEq
        simp [List.lookup]
      · have hne : f.name ≠ f0.name := by
          intro hcontra
          have hmem : f0.name ∈ rest.map FieldSpec.name := by
            rw [← hcontra]
            exact List.mem_map_of_mem FieldSpec.name hMem
          exact (List.nodup_cons.mp (by simpa using hnd)).1 hmem
        have hbeq : (f.name == f0.name) = false := beq_eq_false_iff_ne.mpr hne
        simp only [List.map_cons, List.lookup, hbeq]
        exact ih (by simpa using (List.nodup_cons.mp (by simpa using hnd)).2) hMem

/-- A record whose lookups deliver values on which every field pipeline is
stable revalidates without errors and reassembles to the same record. -/
theorem revalidate_fields (fs : List FieldSpec) (r : Record) (call' : Nat)
    (g : FieldSpec → Value)
    (hlk : ∀ f ∈ fs, r.lookup f.name = some (g f))
    (hpl : ∀ f ∈ fs, runFieldPipeline f (g f) = .ok (g f)) :
    fieldErrorsL fs r call' = [] ∧
      builtRecordL fs r call' = fs.map (fun f => (f.name, g f)) := by
  induction fs with
  | nil => exact ⟨rfl, rfl⟩
  | cons f0 rest ih =>
      have hv : validateField f0 (r.lookup f0.name) call' = .ok (g f0) := by
        rw [hlk f0 (List.mem_cons_self f0 rest)]
        exact hpl f0 (List.mem_cons_self f0 rest)
      obtain ⟨ih1, ih2⟩ := ih (fun f hf => hlk f (List.mem_cons_of_mem _ hf))
          (fun f hf => hpl f (List.mem_cons_of_mem _ hf))
      constructor
      · show errorsOf (validateField f0 (r.lookup f0.name) call')
            ++ fieldErrorsL rest r call' = []
        rw [hv, ih1]
        rfl
      · show (match validateField f0 (r.lookup f0.name) call' with
              | .ok v => (f0.name, v) :: builtRecordL rest r call'
              | .error _ => builtRecordL rest r call') = _
        rw [hv, ih2]
        rfl

/-- A successful field outcome always comes from a successful pipeline run on
some entry value (the raw value, the default, or the factory product). -/
theorem validateField_ok_pipeline (f : FieldSpec) (raw : Option Value) (call : Nat) (w : Value)
    (h : validateField f raw call = .ok w) : ∃ v0, runFieldPipeline f v0 = .ok w := by
  cases raw with
  | some v => exact ⟨v, h⟩
  | none =>
      simp only [validateField] at h
      cases hd : f.dflt with
      | required => simp only [hd] at h; exact Except.noConfusion h
      | value v => simp only [hd] at h; exact ⟨v, h⟩
      | factory gf => simp only [hd] at h; exact ⟨gf call, h⟩

/-- Claim C8 (amended): validation is idempotent for every schema with
pairwise-distinct field names, no pre-coercion validators, and pure-check
post-coercion and whole-record validators (validators that return their input
unchanged when they succeed): revalidating an ACCEPTED record through the same
schema, on any later call, yields ACCEPTED with the identical record — in
particular coercion of an already correctly-typed value is a no-op.  A
value-transforming validator can break idempotence. -/
theorem validate_idempotent_pure_checks (s : Schema) (input r : Record) (call call' : Nat)
    (hnd : (s.fields.map FieldSpec.name).Nodup)
    (hpre : ∀ f ∈ s.fields, f.preValidators = [])
    (hpost : ∀ f ∈ s.fields, ∀ g ∈ f.postValidators, ∀ a b, g a = .ok b → b = a)
    (hrv : ∀ rv ∈ s.recordValidators, ∀ a b, rv a = .ok b → b = a)
    (hacc : validate s input call = .accepted r) :
    validate s r call' = .accepted r := by
  unfold validate at hacc
  cases hfe : fieldErrorsL s.fields input call with
  | cons e es =>
      simp only [hfe] at hacc
      exact ValidationResult.noConfusion hacc
  | nil =>
      simp only [hfe] at hacc
      cases hrr : runRecordValidators s.recordValidators (builtRecordL s.fields input call) with
      | error m =>
          simp only [hrr] at hacc
          exact ValidationResult.noConfusion hacc
      | ok r0 =>
          simp only [hrr] at hacc
          injection hacc with h1
          subst h1
          have hok := fieldErrorsL_nil_ok s.fields input call hfe
          have hbuilt := builtRecordL_eq_map s.fields input call hok
          have hr0 : r0 = builtRecordL s.fields input call :=
            runRecordValidators_pure s.recordValidators hrv _ _ hrr
          have hrmap : r0 = s.fields.map
              (fun f => (f.name, extractOk (validateField f (input.lookup f.name) call))) := by
            rw [hr0, hbuilt]
          have hlk : ∀ f ∈ s.fields, r0.lookup f.name
              = some (extractOk (validateField f (input.lookup f.name) call)) := by
            intro f hf
            rw [hrmap]
            exact lookup_map_name s.fields _ hnd f hf
          have hpl : ∀ f ∈ s.fields, runFieldPipeline f
              (extractOk (validateField f (input.lookup f.name) call))
              = .ok (extractOk (validateField f (input.lookup f.name) call)) := by
            intro f hf
            obtain ⟨v0, hv0⟩ := validateField_ok_pipeline f _ call _ (hok f hf)
            exact runFieldPipeline_stable f v0 _ (hpre f hf) (hpost f hf) hv0
          obtain ⟨hfe2, hb2⟩ := revalidate_fields s.fields r0 call' _ hlk hpl
          unfold validate
          rw [hfe2]
          rw [hb2, ← hrmap]
          rw [show runRecordValidators s.recordValidators r0 = .ok r0 from by rw [hr0] at hrr ⊢; exact hrr]

/-- Claim C8 counterexample: with a value-transforming (incrementing)
post-coercion custom validator — legal under the spec's validator contract —
validating the ACCEPTED output record again yields a different record, so
idempotence fails for the claim's full generality. -/
theorem idempotence_counterexample :
    validate IncSchema [("count", Value.vInt 1)] 0 = .accepted [("count", Value.vInt 2)] ∧
    validate IncSchema [("count", Value.vInt 2)] 0 = .accepted [("count", Value.vInt 3)] ∧
    ValidationResult.accepted [("count", Value.vInt 3)]
      ≠ .accepted [("count", Value.vInt 2)] :=
  ⟨rfl, rfl, by decide⟩

/-- Witness for the amended claim C8 on the scenario-A age schema. -/
theorem validate_idempotent_pure_checks_witness :
    validate ageSchema [("age", Value.vInt 25)] 0 = .accepted [("age", Value.vInt 25)] ∧
    validate ageSchema [("age", Value.vInt 25)] 1 = .accepted [("age", Value.vInt 25)] := by
  refine ⟨rfl, ?_⟩
  refine validate_idempotent_pure_checks ageSchema [("age", Value.vInt 25)]
    [("age", Value.vInt 25)] 0 1 (by decide) ?_ ?_ ?_ rfl
  · intro f hf
    have : f = ageField := by simpa [ageSchema] using hf
    subst this
    rfl
  · intro f hf g hg
    have : f = ageField := by simpa [ageSchema] using hf
    subst this
    simp [ageField] at hg
  · intro rv hrv
    exact absurd hrv (List.not_mem_nil rv)
